import Mathlib

/-!
Verification of the Music Thing Modular Computer CircuitPython library
(`mtm_computer.py`) and its demo loop (`input_output_demo.py`).

The shallow embedding below translates the signal-conditioning core of the
library into Lean.  Python machine integers become `Nat`/`Int`.  The Python
float smoothing computation `int(s*old + (1-s)*raw)` with `s = 0.3` is
modelled twice: `smooth` is the exact-rational idealisation (floor of
`(3*old + 7*raw)/10`), used only for the mux frame-structure claims, which
are insensitive to the numeric value written; `smoothFloat` is the
value-faithful IEEE-754 binary64 model — both constants, both products and
the sum are carried as integers scaled by `2^54` and rounded to 53
significant bits with round-to-nearest, ties-to-even (`rnd53`), exactly as
the hardware double arithmetic does (no overflow or subnormals occur in
this range, and CPython performs no fused multiply-add).  Python's float
division in `int((x*x)/65535)` is idealised as natural-number (floor)
division, which agrees with the double computation for every `x ≤ 65535`
since `x*x < 2^53` is exactly representable and the quotient's fractional
part is either 0 or at least `1/65535`, far beyond double rounding error.
Hardware pins are explicit `Bool` state; ADC samples are inputs to
`update`.
-/

namespace MTM

/-- Smoothing step from `Computer.mux_read`:
`int(s*self.analog[k] + (1-s)*raw)` with `self.analog_smooth_amount = 0.3`,
idealised over exact rationals: `⌊(3*old + 7*raw) / 10⌋`.  The real double
arithmetic can return one less than this (see `smoothFloat`, the
value-faithful model); this idealisation is used only in the mux
frame-structure theorems, which do not depend on the value written. -/
def smooth (old raw : ℕ) : ℕ := (3 * old + 7 * raw) / 10

/-- Fuel-bounded binary length: `nbits fuel n` is the number of binary
digits of `n`, correct whenever `n < 2 ^ fuel`.  Structural in the fuel so
that it reduces in the kernel. -/
def nbits (fuel n : ℕ) : ℕ :=
  match fuel with
  | 0 => 0
  | fuel + 1 => if n = 0 then 0 else nbits fuel (n / 2) + 1

/-- Rounds `n` to at most 53 significant binary digits with round-to-
nearest, ties-to-even — IEEE-754 binary64 significand rounding applied to
an integer-scaled value.  Correct for `n < 2 ^ 100`. -/
def rnd53 (n : ℕ) : ℕ :=
  if nbits 100 n ≤ 53 then n
  else if 2 ^ (nbits 100 n - 54) < n % 2 ^ (nbits 100 n - 53) ∨
          (n % 2 ^ (nbits 100 n - 53) = 2 ^ (nbits 100 n - 54) ∧
            n / 2 ^ (nbits 100 n - 53) % 2 = 1) then
    (n / 2 ^ (nbits 100 n - 53) + 1) * 2 ^ (nbits 100 n - 53)
  else
    n / 2 ^ (nbits 100 n - 53) * 2 ^ (nbits 100 n - 53)

/-- The IEEE binary64 value of the literal `0.3`
(= `self.analog_smooth_amount`), scaled by `2 ^ 54`:
`0.3 ≈ 5404319552844595 / 2 ^ 54`, the nearest double. -/
def scaledS : ℕ := 5404319552844595

/-- The IEEE binary64 value of `1 - 0.3` as computed by the code (which
equals the double nearest `0.7`, `3152519739159347 / 2 ^ 52`), scaled by
`2 ^ 54`. -/
def scaledT : ℕ := 12610078956637388

/-- Value-faithful model of the smoothing step
`int(s*old + (1-s)*raw)` from `Computer.mux_read` with `s = 0.3`: the two
double products and the double sum are carried exactly as integers scaled
by `2 ^ 54` and rounded with `rnd53` after each operation, exactly as
binary64 arithmetic does for inputs in [0,65535]; Python's `int()`
truncation of the non-negative result is floor division by `2 ^ 54`.
This model was validated to agree with CPython's float evaluation of the
source expression on every pair of a 300×300 grid, 300000 random pairs in
[0,65535]², the whole diagonal and the boundary rows. -/
def smoothFloat (old raw : ℕ) : ℕ :=
  rnd53 (rnd53 (scaledS * old) + rnd53 (scaledT * raw)) / 2 ^ 54

/-- State of a `Computer` instance relevant to the mux scanner: the
`analog` channel table (8 slots), the `mux_count` phase counter and the two
mux select lines. -/
structure Computer where
  analog : Fin 8 → ℕ
  mux_count : ℕ
  mux_A : Bool
  mux_B : Bool

/-- Field state established by `Computer.__init__` before the priming loop:
`self.analog = [0] * CHANNEL_COUNT`, `self.mux_count = 0`, mux select lines
switched to output (default low). -/
def computerInit0 : Computer :=
  { analog := fun _ => 0, mux_count := 0, mux_A := false, mux_B := false }

/-- Embedding of `Computer.mux_update(num)`:
`self.mux_A.value = (num >> 0) & 1; self.mux_B.value = (num >> 1) & 1`. -/
def mux_update (num : ℕ) (c : Computer) : Computer :=
  { c with mux_A := num.testBit 0, mux_B := num.testBit 1 }

/-- Embedding of `Computer.mux_read(num)`; `r1` and `r2` are the raw ADC
samples `analog_mux1.value` and `analog_mux2.value` for this call. -/
def mux_read (num r1 r2 : ℕ) (c : Computer) : Computer :=
  if num = 0 then
    { c with analog := Function.update (Function.update c.analog 4 (smooth (c.analog 4) r1)) 2 (smooth (c.analog 2) r2) }
  else if num = 1 then
    { c with analog := Function.update (Function.update c.analog 5 (smooth (c.analog 5) r1)) 3 (smooth (c.analog 3) r2) }
  else if num = 2 then
    { c with analog := Function.update (Function.update c.analog 6 (smooth (c.analog 6) r1)) 2 (smooth (c.analog 2) r2) }
  else if num = 3 then
    { c with analog := Function.update (Function.update c.analog 7 (smooth (c.analog 7) r1)) 3 (smooth (c.analog 3) r2) }
  else c

/-- Embedding of `Computer.update()`: `mux_update(mux_count)`,
`mux_read(mux_count)`, then `mux_count = (mux_count + 1) % 4`. -/
def update (r1 r2 : ℕ) (c : Computer) : Computer :=
  let c1 := mux_update c.mux_count c
  let c2 := mux_read c.mux_count r1 r2 c1
  { c2 with mux_count := (c2.mux_count + 1) % 4 }

/-- Runs a sequence of `update()` calls, consuming one pair of ADC samples
per call. -/
def runUpdates (rs : List (ℕ × ℕ)) (c : Computer) : Computer :=
  rs.foldl (fun c p => update p.1 p.2 c) c

/-- Embedding of the tail of `Computer.__init__`:
`for i in range(4): self.update()` — construction primes the instance with
exactly 4 consecutive `update()` calls, here consuming the four ADC sample
pairs observed during priming. -/
def computerNew (p1 p2 p3 p4 : ℕ × ℕ) : Computer :=
  runUpdates [p1, p2, p3, p4] computerInit0

/-- The phase→channel mapping table as stated by the spec
(phase0→{4,2}, phase1→{5,3}, phase2→{6,2}, phase3→{7,3}); the first
component receives the `analog_mux1` sample, the second the `analog_mux2`
sample.  Spec-side definition, compared against the source-derived
`update`. -/
def specPhaseTable : Fin 4 → Fin 8 × Fin 8
  | 0 => (4, 2)
  | 1 => (5, 3)
  | 2 => (6, 2)
  | 3 => (7, 3)

/-- The spec's claimed smoothing result `round(s*old + (1-s)*raw)` with
`s = 0.3`, over exact rationals.  Spec-side definition, compared against
the source-derived `smooth`. -/
def specSmoothRound (old raw : ℕ) : ℤ :=
  round ((3 * old + 7 * raw : ℚ) / 10)

/-- Embedding of the `cv_1_out` / `cv_2_out` setters:
`self.cv_N_pwm.duty_cycle = 65535 - min(max(int(val), 0), 65535)`; returns
the PWM duty cycle written. -/
def cv_out_set_duty (val : ℤ) : ℤ := 65535 - min (max val 0) 65535

/-- Embedding of the `cv_1_out` / `cv_2_out` getters:
`return 65535 - self.cv_N_pwm.duty_cycle`. -/
def cv_out_get (duty : ℤ) : ℤ := 65535 - duty

/-- Embedding of the `audio_1_in` / `audio_2_in` and `cv_N_in` polarity
correction: `return 65535 - raw`. -/
def audio_in (raw : ℕ) : ℕ := 65535 - raw

/-- DAC code computed by the `audio_N_out` setters:
`4095 - (int(value) // 16)`; Python `//` is floor division, `Int.fdiv`. -/
def audio_out_dac_code (value : ℤ) : ℤ := 4095 - Int.fdiv value 16

/-- DAC parameter constant `DAC_config_chan_A_gain` (Buffered, 1x Gain). -/
def DAC_config_chan_A_gain : ℕ := 0b0011000000000000

/-- DAC parameter constant `DAC_config_chan_B_gain` (Buffered, 1x Gain). -/
def DAC_config_chan_B_gain : ℕ := 0b1011000000000000

/-- The 16-bit frame built by `Computer.dac_write`:
`DAC_config_chan_X_gain | (value & 0xFFF)`.  Python's `value & 0xFFF` on an
arbitrary (possibly negative, two's-complement) int equals
`value mod 4096`, embedded as `(value.emod 4096).toNat`. -/
def dac_data (channel : ℕ) (value : ℤ) : ℕ :=
  (if channel = 0 then DAC_config_chan_A_gain else DAC_config_chan_B_gain)
    ||| (value.emod 4096).toNat

/-- Big-endian byte split in `Computer.dac_write`:
`bytes((DAC_data >> 8, DAC_data & 0xFF))`. -/
def dac_frame_bytes (d : ℕ) : ℕ × ℕ := (d >>> 8, d &&& 0xFF)

/-- Embedding of `Computer.dac_write(channel, value)`.  `lockOk` is the
result of `self.dac_spi.try_lock()`.  Returns the byte pair transmitted
over SPI (`none` when the lock was not acquired — the body of the `if` is
skipped and there is no `else` branch) together with the list of console
messages printed (the function contains no `print` call in either case). -/
def dac_write (lockOk : Bool) (channel : ℕ) (value : ℤ) :
    Option (ℕ × ℕ) × List String :=
  if lockOk then (some (dac_frame_bytes (dac_data channel value)), []) else (none, [])

/-- The logical audio output state `_audio_1_out_value` /
`_audio_2_out_value` kept by the facade. -/
structure AudioOutState where
  a1 : ℤ
  a2 : ℤ

/-- Initial audio output state from `Computer.__init__`:
`self._audio_1_out_value = 0; self._audio_2_out_value = 0`. -/
def audioOutInit : AudioOutState := ⟨0, 0⟩

/-- Embedding of the `audio_1_out` setter: stores the raw 16-bit value,
then `dac_write(0, 4095 - (int(value) // 16))`.  Returns the new state,
the transmitted bytes (if any) and the console output. -/
def audio_1_out_set (lockOk : Bool) (v : ℤ) (st : AudioOutState) :
    AudioOutState × Option (ℕ × ℕ) × List String :=
  ({ st with a1 := v }, dac_write lockOk 0 (audio_out_dac_code v))

/-- Embedding of the `audio_2_out` setter: stores the raw 16-bit value,
then `dac_write(1, 4095 - (int(value) // 16))`. -/
def audio_2_out_set (lockOk : Bool) (v : ℤ) (st : AudioOutState) :
    AudioOutState × Option (ℕ × ℕ) × List String :=
  ({ st with a2 := v }, dac_write lockOk 1 (audio_out_dac_code v))

/-- Embedding of `gamma_correct(x)` from `mtm_computer.py`:
`min(max(int((x*x)/65535), 0), 65535)` (float division idealised as floor
division, exact for all `x ≤ 65535`). -/
def gamma_correct (x : ℕ) : ℕ := min (max (x * x / 65535) 0) 65535

/-- Embedding of `rect_scale(raw)` from `input_output_demo.py`:
`(raw - 32768) * 2 if raw > 32768 else 0`. -/
def rect_scale (raw : ℤ) : ℤ := if raw > 32768 then (raw - 32768) * 2 else 0

/-- Physical state of the two pulse output pins (`_pulse_1_out_pin.value`,
`_pulse_2_out_pin.value`). -/
structure PulseOutPins where
  p1 : Bool
  p2 : Bool

/-- Initial pulse output pin state from `Computer.__init__`:
`switch_to_output(value=True)` on both pins — physically high. -/
def pulsePinsInit : PulseOutPins := ⟨true, true⟩

/-- Embedding of the `pulse_1_out` setter:
`self._pulse_1_out_pin.value = not bool(value)`. -/
def pulse_1_out_set (v : Bool) (s : PulseOutPins) : PulseOutPins :=
  { s with p1 := !v }

/-- Embedding of the `pulse_2_out` setter:
`self._pulse_2_out_pin.value = not bool(value)`. -/
def pulse_2_out_set (v : Bool) (s : PulseOutPins) : PulseOutPins :=
  { s with p2 := !v }

/-- Embedding of the `pulse_1_in` / `pulse_2_in` getters:
`return not self.pulse_N_in_read.value` — logical negation of the physical
line level. -/
def pulse_in (phys : Bool) : Bool := !phys

/-! Helper lemmas about the mux state machine. -/

theorem mux_read_mux_count (num r1 r2 : ℕ) (c : Computer) :
    (mux_read num r1 r2 c).mux_count = c.mux_count := by
  unfold mux_read; split_ifs <;> rfl

theorem update_mux_count (r1 r2 : ℕ) (c : Computer) :
    (update r1 r2 c).mux_count = (c.mux_count + 1) % 4 := by
  show ((mux_read c.mux_count r1 r2 (mux_update c.mux_count c)).mux_count + 1) % 4 = _
  rw [mux_read_mux_count]
  rfl

theorem runUpdates_mux_count (rs : List (ℕ × ℕ)) (c : Computer) (h : c.mux_count < 4) :
    (runUpdates rs c).mux_count = (c.mux_count + rs.length) % 4 := by
  induction rs generalizing c with
  | nil => simp [runUpdates]; omega
  | cons p rs ih =>
    show (runUpdates rs (update p.1 p.2 c)).mux_count = _
    rw [ih _ (by rw [update_mux_count]; omega), update_mux_count]
    simp only [List.length_cons]
    omega

/-- C1: construction primes the instance with exactly 4 consecutive
`update()` calls (modelled by `computerNew`, which is `runUpdates` on a
4-element sample list), leaving the phase counter at 0; thereafter, after
N further `update()` calls the phase counter `mux_count` equals N mod 4,
and every single `update()` strictly advances the phase by one step
modulo 4 — no phase is skipped or repeated. -/
theorem mux_phase_sequencing (p1 p2 p3 p4 : ℕ × ℕ) (rs : List (ℕ × ℕ)) :
    (computerNew p1 p2 p3 p4).mux_count = 0 ∧
    (runUpdates rs (computerNew p1 p2 p3 p4)).mux_count = rs.length % 4 ∧
    ∀ (r1 r2 : ℕ) (c : Computer), (update r1 r2 c).mux_count = (c.mux_count + 1) % 4 := by
  have h0 : (computerNew p1 p2 p3 p4).mux_count = 0 := by
    rw [computerNew, runUpdates_mux_count _ _ (by decide)]
    simp [computerInit0]
  refine ⟨h0, ?_, fun r1 r2 c => update_mux_count r1 r2 c⟩
  rw [runUpdates_mux_count _ _ (by omega), h0]
  omega

/-- C2: each `update()` call rewrites exactly the two `analog` slots given
by the phase→channel mapping table (phase0→{4,2}, phase1→{5,3},
phase2→{6,2}, phase3→{7,3}) — the first slot with the smoothed
`analog_mux1` sample, the second with the smoothed `analog_mux2` sample —
and leaves every other slot unchanged; over one 4-phase cycle the table
services channels 2 and 3 twice and channels 4, 5, 6, 7 once each. -/
theorem update_frame_effect (c : Computer) (r1 r2 : ℕ) (h : c.mux_count < 4) :
    (update r1 r2 c).analog (specPhaseTable ⟨c.mux_count, h⟩).1
      = smooth (c.analog (specPhaseTable ⟨c.mux_count, h⟩).1) r1 ∧
    (update r1 r2 c).analog (specPhaseTable ⟨c.mux_count, h⟩).2
      = smooth (c.analog (specPhaseTable ⟨c.mux_count, h⟩).2) r2 ∧
    (∀ i : Fin 8, i ≠ (specPhaseTable ⟨c.mux_count, h⟩).1 →
      i ≠ (specPhaseTable ⟨c.mux_count, h⟩).2 → (update r1 r2 c).analog i = c.analog i) ∧
    ∀ j : Fin 8,
      (Finset.univ.filter fun p : Fin 4 => (specPhaseTable p).1 = j ∨ (specPhaseTable p).2 = j).card
        = if (j : ℕ) = 2 ∨ (j : ℕ) = 3 then 2 else if 4 ≤ (j : ℕ) then 1 else 0 := by
  have tcount : ∀ j : Fin 8,
      (Finset.univ.filter fun p : Fin 4 => (specPhaseTable p).1 = j ∨ (specPhaseTable p).2 = j).card
        = if (j : ℕ) = 2 ∨ (j : ℕ) = 3 then 2 else if 4 ≤ (j : ℕ) then 1 else 0 := by decide
  obtain ⟨a, m, A, B⟩ := c
  have h' : m < 4 := h
  interval_cases m <;>
    refine ⟨?_, ?_, fun i h1 h2 => ?_, tcount⟩ <;>
      simp only [update, mux_read, mux_update, specPhaseTable] <;>
      try norm_num
  all_goals first
    | rw [Function.update_same]
    | rw [Function.update_noteq (by decide), Function.update_same]
    | (norm_num [specPhaseTable] at h1 h2
       rw [Function.update_noteq h2, Function.update_noteq h1])

/-- Witness for C2 at a fresh instance (phase 0 and samples 100, 200):
slot 4 becomes the smoothed main-knob sample and slot 0 is untouched. -/
theorem update_frame_effect_witness :
    (update 100 200 computerInit0).analog 4 = smooth (computerInit0.analog 4) 100 ∧
    (update 100 200 computerInit0).analog 0 = computerInit0.analog 0 := by
  have h := update_frame_effect computerInit0 100 200 (by decide)
  exact ⟨h.1, h.2.2.1 0 (by decide) (by decide)⟩

theorem nbits_zero (fuel : ℕ) : nbits fuel 0 = 0 := by
  cases fuel <;> rfl

theorem nbits_spec (fuel n : ℕ) (h : n < 2 ^ fuel) :
    n < 2 ^ nbits fuel n ∧ (2 ^ nbits fuel n ≤ 2 * n ∨ n = 0) := by
  induction fuel generalizing n with
  | zero =>
    simp only [pow_zero] at h
    interval_cases n
    simp [nbits]
  | succ fuel ih =>
    by_cases h0 : n = 0
    · subst h0; simp [nbits]
    · have hp : (2:ℕ) ^ (fuel + 1) = 2 * 2 ^ fuel := by rw [pow_succ]; ring
      have hd : n / 2 < 2 ^ fuel := by omega
      obtain ⟨ih1, ih2⟩ := ih (n / 2) hd
      simp only [nbits, h0, if_false]
      have hp2 : (2:ℕ) ^ (nbits fuel (n / 2) + 1) = 2 * 2 ^ nbits fuel (n / 2) := by
        rw [pow_succ]; ring
      rcases ih2 with hg | hg
      · exact ⟨by omega, Or.inl (by omega)⟩
      · have h1 : n = 1 := by omega
        subst h1
        rw [show (1:ℕ)/2 = 0 from rfl, nbits_zero] at hp2 ⊢
        norm_num at hp2 ⊢

theorem rnd53_err (n : ℕ) (h : n < 2 ^ 71) :
    rnd53 n ≤ n + n / 2 ^ 53 ∧ n ≤ rnd53 n + n / 2 ^ 53 := by
  obtain ⟨hlt, hge⟩ := nbits_spec 100 n (by omega)
  unfold rnd53
  split_ifs with hc hr
  · omega
  all_goals {
    have hn0 : n ≠ 0 := by
      intro h0
      rw [h0, nbits_zero] at hc
      omega
    have hg : 2 ^ nbits 100 n ≤ 2 * n := hge.resolve_right hn0
    set b := nbits 100 n with hb
    have hb54 : 54 ≤ b := by omega
    have hble : b ≤ 72 := by
      by_contra hcon
      have h73 : (2:ℕ) ^ 73 ≤ 2 ^ b := Nat.pow_le_pow_right (by norm_num) (by omega)
      omega
    have hbe : (2:ℕ) ^ b = 2 * 2 ^ (b - 1) := by
      rw [← pow_succ']
      congr 1
      omega
    have hn1 : 2 ^ (b - 1) ≤ n := by omega
    have hdiv53 : 2 ^ (b - 54) ≤ n / 2 ^ 53 := by
      have h1 : 2 ^ (b - 1) / 2 ^ 53 ≤ n / 2 ^ 53 := Nat.div_le_div_right hn1
      have h2 : (2:ℕ) ^ (b - 1) / 2 ^ 53 = 2 ^ (b - 54) := by
        rw [Nat.pow_div (by omega) (by norm_num)]
        congr 1
      omega
    have hq := Nat.div_add_mod n (2 ^ (b - 53))
    have hrlt : n % 2 ^ (b - 53) < 2 ^ (b - 53) := Nat.mod_lt _ (by positivity)
    have hhalf : (2:ℕ) ^ (b - 53) = 2 * 2 ^ (b - 54) := by
      rw [← pow_succ']
      congr 1
      omega
    first
      | (have hrge : 2 ^ (b - 54) ≤ n % 2 ^ (b - 53) := by
           rcases hr with h' | ⟨h', -⟩ <;> omega
         clear hr
         rw [show (n / 2 ^ (b - 53) + 1) * 2 ^ (b - 53)
               = 2 ^ (b - 53) * (n / 2 ^ (b - 53)) + 2 ^ (b - 53) from by ring]
         generalize 2 ^ (b - 53) * (n / 2 ^ (b - 53)) = A at hq ⊢
         omega)
      | (have hrle : n % 2 ^ (b - 53) ≤ 2 ^ (b - 54) := by
           push_neg at hr
           omega
         clear hr
         rw [show n / 2 ^ (b - 53) * 2 ^ (b - 53)
               = 2 ^ (b - 53) * (n / 2 ^ (b - 53)) from by ring]
         generalize 2 ^ (b - 53) * (n / 2 ^ (b - 53)) = A at hq ⊢
         omega)
  }

/-- C3 counterexample: at old = raw = 3 the code's double arithmetic
computes int(0.3·3 + 0.7·3) = int(2.9999999999999996) = 2, which is below
min(old,raw) = 3 — refuting both the convex-combination lower bound and
the claimed round(s·old + (1−s)·raw) = 3. -/
theorem smoothing_claim_counterexample :
    smoothFloat 3 3 = 2 ∧ ¬ (min 3 3 ≤ smoothFloat 3 3) ∧
    (smoothFloat 3 3 : ℤ) ≠ specSmoothRound 3 3 := by
  have h : smoothFloat 3 3 = 2 := by decide
  refine ⟨h, by rw [h]; decide, ?_⟩
  rw [h]
  norm_num [specSmoothRound, round_eq]

/-- C3 (amended): the smoothing step returns the truncation (Python int())
of the IEEE binary64 evaluation of s·old + (1−s)·raw with s = 0.3
(modelled exactly by `smoothFloat`); for old, raw in [0,65535] the result
lies in [0,65535] and within [min(old,raw) − 1, max(old,raw)] — double
rounding can dip one below min(old,raw), but no further, and never above
max(old,raw). -/
theorem smoothFloat_bounds (old raw : ℕ) (h1 : old ≤ 65535) (h2 : raw ≤ 65535) :
    min old raw ≤ smoothFloat old raw + 1 ∧ smoothFloat old raw ≤ max old raw ∧
    smoothFloat old raw ≤ 65535 := by
  simp only [smoothFloat, scaledS, scaledT]
  obtain ⟨e1a, e1b⟩ := rnd53_err (5404319552844595 * old) (by omega)
  obtain ⟨e2a, e2b⟩ := rnd53_err (12610078956637388 * raw) (by omega)
  obtain ⟨e3a, e3b⟩ :=
    rnd53_err (rnd53 (5404319552844595 * old) + rnd53 (12610078956637388 * raw)) (by omega)
  omega

/-- Witness for C3 (amended) at old = raw = 3, the input where the result
2 attains the weakened lower bound min − 1. -/
theorem smoothFloat_bounds_witness :
    min 3 3 ≤ smoothFloat 3 3 + 1 ∧ smoothFloat 3 3 ≤ max 3 3 ∧ smoothFloat 3 3 ≤ 65535 :=
  smoothFloat_bounds 3 3 (by decide) (by decide)

/-- C4: for every v in [0,65535] the cv_1_out / cv_2_out setter writes PWM
duty 65535 − v and reading the property back returns v exactly. -/
theorem cv_out_round_trip_exact (v : ℤ) (h1 : 0 ≤ v) (h2 : v ≤ 65535) :
    cv_out_set_duty v = 65535 - v ∧ cv_out_get (cv_out_set_duty v) = v := by
  unfold cv_out_set_duty cv_out_get; omega

/-- Witness for C4 at v = 12345. -/
theorem cv_out_round_trip_exact_witness :
    cv_out_set_duty 12345 = 65535 - 12345 ∧ cv_out_get (cv_out_set_duty 12345) = 12345 :=
  cv_out_round_trip_exact 12345 (by decide) (by decide)

/-- C5: for every v in [0,65535] the audio_1_out setter produces DAC code
4095 − (v // 16), which lies in [0,4095]; a raw audio-1 ADC sample of
20000 reads back as 45535; setting audio_1_out = 45535 yields code 1250,
whose channel-A frame is the gain/buffer constant OR'd with the 12-bit
code, split big-endian into the two bytes 0x34, 0xE2. -/
theorem audio_out_scaling_and_frame (v : ℤ) (h1 : 0 ≤ v) (h2 : v ≤ 65535) :
    (0 ≤ audio_out_dac_code v ∧ audio_out_dac_code v ≤ 4095) ∧
    audio_in 20000 = 45535 ∧
    audio_out_dac_code 45535 = 4095 - 2845 ∧
    audio_out_dac_code 45535 = 1250 ∧
    dac_data 0 (audio_out_dac_code 45535) = DAC_config_chan_A_gain ||| 1250 ∧
    dac_frame_bytes (dac_data 0 (audio_out_dac_code 45535)) = (0x34, 0xE2) := by
  refine ⟨?_, by decide, by decide, by decide, by decide, by decide⟩
  unfold audio_out_dac_code
  rw [Int.fdiv_eq_ediv _ (by norm_num)]
  omega

/-- Witness for C5 at v = 1000. -/
theorem audio_out_scaling_and_frame_witness :
    (0 ≤ audio_out_dac_code 1000 ∧ audio_out_dac_code 1000 ≤ 4095) ∧
    audio_in 20000 = 45535 ∧
    audio_out_dac_code 45535 = 4095 - 2845 ∧
    audio_out_dac_code 45535 = 1250 ∧
    dac_data 0 (audio_out_dac_code 45535) = DAC_config_chan_A_gain ||| 1250 ∧
    dac_frame_bytes (dac_data 0 (audio_out_dac_code 45535)) = (0x34, 0xE2) :=
  audio_out_scaling_and_frame 1000 (by decide) (by decide)

/-- C6 counterexample: at lockOk = false, v = 1000, starting from the
initial audio output state, the claim's conjunction fails — the transfer
is skipped and the logical value is recorded, but nothing is logged
(`dac_write` contains no print call), refuting "the event is reported
(logged)". -/
theorem dac_failed_lock_not_logged :
    ¬ ((audio_1_out_set false 1000 audioOutInit).2.2 ≠ [] ∧
       (audio_1_out_set false 1000 audioOutInit).2.1 = none ∧
       (audio_1_out_set false 1000 audioOutInit).1.a1 = 1000) := by
  decide

/-- C6 (amended): when `dac_write` fails to acquire the SPI bus lock the
transfer for that call is skipped entirely and silently — no bytes are
transmitted, nothing is logged, no retry, no exception — while the logical
output state (_audio_N_out_value) is still recorded as if written
(and it is recorded whether or not the lock is acquired). -/
theorem dac_drop_on_contention (v : ℤ) (st : AudioOutState) :
    (audio_1_out_set false v st).2.1 = none ∧
    (audio_1_out_set false v st).2.2 = [] ∧
    (audio_1_out_set false v st).1.a1 = v ∧
    (audio_2_out_set false v st).2.1 = none ∧
    (audio_2_out_set false v st).2.2 = [] ∧
    (audio_2_out_set false v st).1.a2 = v ∧
    ∀ lockOk : Bool,
      (audio_1_out_set lockOk v st).1.a1 = v ∧ (audio_2_out_set lockOk v st).1.a2 = v := by
  refine ⟨rfl, rfl, rfl, rfl, rfl, rfl, fun lockOk => ⟨rfl, rfl⟩⟩

/-- C7: gamma_correct(x) = clamp(⌊x²/65535⌋, 0, 65535); the fixed points
gamma_correct(0) = 0 and gamma_correct(65535) = 65535 hold, and
gamma_correct is monotone non-decreasing over [0,65535]. -/
theorem gamma_correct_props :
    gamma_correct 0 = 0 ∧ gamma_correct 65535 = 65535 ∧
    ∀ x y : ℕ, x ≤ y → y ≤ 65535 → gamma_correct x ≤ gamma_correct y := by
  refine ⟨by decide, by norm_num [gamma_correct], ?_⟩
  intro x y hxy _
  have h2 : x * x ≤ y * y := Nat.mul_le_mul hxy hxy
  simp only [gamma_correct]
  set a := x * x
  set b := y * y
  omega

/-- Witness for C7's monotonicity component at x = 2, y = 3. -/
theorem gamma_correct_props_witness : gamma_correct 2 ≤ gamma_correct 3 :=
  gamma_correct_props.2.2 2 3 (by decide) (by decide)

/-- C8: rect_scale(r) = 0 for all r ≤ 32768 and rect_scale(r) =
(r − 32768)·2 for r > 32768; for r in [0,65535] the output lies in
[0,65534] and so never exceeds the 16-bit range. -/
theorem rect_scale_props :
    (∀ r : ℤ, r ≤ 32768 → rect_scale r = 0) ∧
    (∀ r : ℤ, 32768 < r → rect_scale r = (r - 32768) * 2) ∧
    (∀ r : ℤ, 0 ≤ r → r ≤ 65535 →
      0 ≤ rect_scale r ∧ rect_scale r ≤ 65534 ∧ rect_scale r ≤ 65535) := by
  refine ⟨fun r h => ?_, fun r h => ?_, fun r h1 h2 => ?_⟩ <;>
    simp only [rect_scale] <;> split_ifs <;> omega

/-- Witness for C8 at r = 5 (rectified to 0) and r = 65535 (maximal). -/
theorem rect_scale_props_witness :
    rect_scale 5 = 0 ∧ rect_scale 65535 = (65535 - 32768) * 2 ∧ rect_scale 65535 ≤ 65534 :=
  ⟨rect_scale_props.1 5 (by decide),
   rect_scale_props.2.1 65535 (by decide),
   (rect_scale_props.2.2 65535 (by decide) (by decide)).2.1⟩

/-- C9: setting pulse_N_out to logical true drives the physical output
line low (and false drives it high); pulse_N_in returns the logical
negation of the physical level, so a physically high line reads false; and
the initial physical state of both output lines is high. -/
theorem pulse_polarity_inversion :
    (∀ (s : PulseOutPins) (v : Bool),
      (pulse_1_out_set v s).p1 = !v ∧ (pulse_2_out_set v s).p2 = !v) ∧
    (∀ s : PulseOutPins,
      (pulse_1_out_set true s).p1 = false ∧ (pulse_2_out_set true s).p2 = false) ∧
    (∀ phys : Bool, pulse_in phys = !phys) ∧
    pulse_in true = false ∧
    pulsePinsInit.p1 = true ∧ pulsePinsInit.p2 = true := by
  exact ⟨fun s v => ⟨rfl, rfl⟩, fun s => ⟨rfl, rfl⟩, fun phys => rfl, rfl, rfl, rfl⟩

/-- C10: for every integer v — including v < 0 and v > 65535 — the
cv_N_out setter clamps, writing PWM duty 65535 − clamp(v, 0, 65535), and
reading the property back returns the clamped value clamp(v, 0, 65535);
the setter is total (no error, no wrap-around). -/
theorem cv_out_setter_clamps (v : ℤ) :
    cv_out_set_duty v = 65535 - min (max v 0) 65535 ∧
    cv_out_get (cv_out_set_duty v) = min (max v 0) 65535 := by
  unfold cv_out_set_duty cv_out_get; omega

end MTM
